import Mathlib

/-!
Verification of the i18n hardcoded-string detection scripts
(`scripts/validate_i18n.py` and `scripts/find_hardcoded_strings.py`).

Strings are embedded as `List Char` (ASCII semantics for the character
classes used by the scripts; all string data handled by the claims is
ASCII).  Python regular expressions used by the scripts are anchored
whole-string or scanning patterns; each is translated into an explicit
recursive matcher below, faithful to the pattern's semantics.
-/

set_option maxRecDepth 20000

abbrev Str := List Char

/-- `strStarts s p` is Python `s.startswith(p)`. -/
def strStarts : Str → Str → Bool
  | _, [] => true
  | [], _ :: _ => false
  | c :: s, d :: p => decide (c = d) && strStarts s p

/-- `strHas s p` is Python `p in s` (substring containment). -/
def strHas : Str → Str → Bool
  | [], p => strStarts [] p
  | c :: t, p => strStarts (c :: t) p || strHas t p

/-- `strEnds s p` is Python `s.endswith(p)`. -/
def strEnds (s p : Str) : Bool := strStarts s.reverse p.reverse

/-- Python `s.startswith(tuple)`. -/
def startsAny (t : Str) (ps : List Str) : Bool := ps.any fun p => strStarts t p

/-- Python `s.endswith(tuple)`. -/
def endsAny (t : Str) (ps : List Str) : Bool := ps.any fun p => strEnds t p

/-- Python `x in list-of-strings`. -/
def listHas (x : Str) : List Str → Bool
  | [] => false
  | y :: t => decide (x = y) || listHas x t

/-- Python `c in s` for a single character. -/
def chHas (c : Char) (t : Str) : Bool := t.any fun d => decide (d = c)

/-- Python `s.lower()` (ASCII). -/
def strLower (t : Str) : Str := t.map Char.toLower

/-- Python `s.split(sep)` for a one-character separator (keeps empty parts). -/
def splitOnChar (sep : Char) : Str → List Str
  | [] => [[]]
  | c :: t =>
    if c = sep then [] :: splitOnChar sep t
    else
      match splitOnChar sep t with
      | [] => [[c]]
      | l :: ls => (c :: l) :: ls

/-- Python `content.split('\n')`. -/
def splitLines (s : Str) : List Str := splitOnChar '\n' s

/-- Python `s.strip()` (ASCII whitespace). -/
def trimStr (s : Str) : Str :=
  ((s.dropWhile Char.isWhitespace).reverse.dropWhile Char.isWhitespace).reverse

/-- Helper for `splitWs`; `acc` holds the current word reversed. -/
def splitWsAux : Str → Str → List Str
  | [], acc => if acc.isEmpty then [] else [acc.reverse]
  | c :: t, acc =>
    if c.isWhitespace then
      (if acc.isEmpty then splitWsAux t [] else acc.reverse :: splitWsAux t [])
    else splitWsAux t (c :: acc)

/-- Python `s.split()`: split on whitespace runs, dropping empty parts. -/
def splitWs (s : Str) : List Str := splitWsAux s []

/-- A `[0-9a-fA-F]` character. -/
def isHexDigitCh (c : Char) : Bool :=
  c.isDigit || (decide ('a' ≤ c) && decide (c ≤ 'f')) || (decide ('A' ≤ c) && decide (c ≤ 'F'))

/-- The regex `^#[0-9a-fA-F]{3,6}$` used for hex colors. -/
def isHexColor : Str → Bool
  | [] => false
  | c :: rest =>
    decide (c = '#') && rest.all isHexDigitCh &&
      decide (3 ≤ rest.length) && decide (rest.length ≤ 6)

/-- The regex `^[a-z][a-zA-Z0-9]*$` (camelCase). -/
def isCamel : Str → Bool
  | [] => false
  | c :: t => c.isLower && t.all Char.isAlphanum

/-- The regex `^[a-z][a-z0-9_]*$` (snake_case). -/
def isSnake : Str → Bool
  | [] => false
  | c :: t => c.isLower && t.all fun d => d.isLower || d.isDigit || decide (d = '_')

/-- The regex `^[a-z][a-z0-9-]*$` (kebab-case). -/
def isKebab : Str → Bool
  | [] => false
  | c :: t => c.isLower && t.all fun d => d.isLower || d.isDigit || decide (d = '-')

/-- Python `s.isdigit()` (ASCII digits; false on the empty string). -/
def isAllDigits (t : Str) : Bool := !t.isEmpty && t.all Char.isDigit

/-- `text[0].isupper()`, totalized: `false` on the empty string.  The
scripts only evaluate `text[0]` after the length-below-3 exclusion has
failed, so the default is never observable (see the totality claim). -/
def firstUpper : Str → Bool
  | [] => false
  | c :: _ => c.isUpper

/-- Convert a list of Lean string literals to the `Str` representation. -/
def mkL (l : List String) : List Str := l.map String.data

namespace VI
/-! Embedding of `scripts/validate_i18n.py`. -/

/-- The styling/markup prefix tuple of the first exclusion
(`text.startswith((...))`, lines 84-99). -/
def cssPrefixes : List Str := mkL
  ["data-", "aria-", "className", "class:", "id-", "test-", "btn-",
   "text-", "bg-", "border-", "flex", "grid", "w-", "h-", "p-", "m-",
   "space-", "gap-", "font-", "leading-", "tracking-", "transform",
   "transition", "duration-", "ease-", "scale-", "rotate-", "translate-",
   "shadow-", "rounded-", "overflow-", "z-", "opacity-", "cursor-",
   "select-", "pointer-", "resize-", "outline-", "ring-", "divide-",
   "group", "peer", "animate-", "sr-", "not-sr-", "focus:", "hover:",
   "active:", "disabled:", "checked:", "invalid:", "valid:", "hidden",
   "absolute", "relative", "fixed", "sticky", "static", "inset-",
   "top-", "right-", "bottom-", "left-", "min-", "max-", "size-",
   "aspect-", "col-", "row-", "place-", "justify-", "items-", "content-",
   "self-", "order-", "basis-", "grow", "shrink", "fill-", "stroke-",
   "after:", "before:", "first:", "last:", "odd:", "even:", "empty:",
   "md:", "lg:", "xl:", "sm:", "xs:", "2xl:", "dark:", "light:",
   "mx-", "my-", "mt-", "mb-", "ml-", "mr-", "px-", "py-", "pt-", "pb-",
   "pl-", "pr-", "inline-", "block", "table", "flow-"]

/-- URL/protocol prefix tuple (line 102). -/
def urlStarts : List Str := mkL ["http", "www", "mailto:", "tel:", "ftp:", "./"]

/-- Known file extensions (lines 105-106). -/
def extList : List Str := mkL
  ["tsx", "ts", "js", "css", "png", "jpg", "svg", "json",
   "html", "xml", "md", "txt", "pdf", "doc", "xlsx"]

/-- Common technical terms compared against `text.lower()` (lines 112-117). -/
def techTerms : List Str := mkL
  ["div", "span", "button", "input", "form", "img", "svg", "path",
   "g", "rect", "circle", "true", "false", "null", "undefined", "px",
   "rem", "em", "vh", "vw", "auto", "none", "block", "inline", "flex",
   "grid", "absolute", "relative", "fixed", "sticky", "left", "right",
   "top", "bottom", "center", "start", "end", "wrap", "nowrap",
   "use client", "ArrowLeft", "ArrowRight", "Bold"]

/-- CSS unit suffix tuple for `text.endswith((...))` (line 119).  Note the
one-character suffix `"s"`. -/
def unitSuffixes : List Str := mkL ["px", "rem", "em", "%", "vh", "vw", "deg", "ms", "s"]

/-- Common non-UI strings compared with `text in [...]` (lines 130-137). -/
def protoTokens : List Str := mkL
  ["GET", "POST", "PUT", "DELETE", "PATCH", "HEAD", "OPTIONS",
   "application/json", "text/plain", "text/html", "image/png",
   "Bearer", "Basic", "Content-Type", "Authorization", "Accept",
   "Accept-Language", "Origin",
   "success", "error", "warning", "info", "debug",
   "created", "updated", "deleted", "AbortError", "NETWORK_ERROR",
   "MEMBERSHIP_ROLE_MEMBER", "MEMBERSHIP_ROLE_ADMIN", "SERIES_VISIBILITY_OPEN",
   "SERIES_VISIBILITY_CLUB_ONLY", "CLUB_ADMIN_OR_PLATFORM_OWNER_REQUIRED",
   "CLUB_ID_REQUIRED_FOR_NON_PLATFORM_OWNERS", "LOGIN_REQUIRED"]

/-- Character class of the regex `^[\w\-:[\]()>&+~*.,#%\s]+$` (line 139). -/
def selChar (c : Char) : Bool :=
  c.isAlphanum || decide (c = '_') || decide (c = '-') || decide (c = ':') ||
  decide (c = '[') || decide (c = ']') || decide (c = '(') || decide (c = ')') ||
  decide (c = '>') || decide (c = '&') || decide (c = '+') || decide (c = '~') ||
  decide (c = '*') || decide (c = '.') || decide (c = ',') || decide (c = '#') ||
  decide (c = '%') || c.isWhitespace

/-- Whole-string match of the CSS-selector character-class regex. -/
def selLike (t : Str) : Bool := !t.isEmpty && t.all selChar

/-- The CSS-specific substrings required alongside `selLike` (lines 140-141). -/
def selNeedles : List Str := mkL ["[&", "::", "->", "calc(", "var(", "min-", "max-"]

/-- Substring indicators of `_is_css_class_string` (lines 59-63). -/
def cssIndicators : List Str := mkL
  ["-", ":", "[", "]", "(", ")", "%", "px", "rem", "em", "vh", "vw",
   "flex", "grid", "block", "inline", "absolute", "relative", "fixed",
   "text", "bg", "border", "rounded", "shadow", "opacity", "transform"]

/-- Single-word utility vocabulary of `_is_css_class_string` (lines 69-72). -/
def singleUtils : List Str := mkL
  ["w", "h", "p", "m", "mx", "my", "px", "py", "mt", "mb", "ml", "mr",
   "pt", "pb", "pl", "pr", "top", "left", "right", "bottom", "center",
   "justify", "items", "content", "self", "auto", "hidden", "block",
   "flex", "grid", "space", "gap", "min", "max", "full"]

/-- One word's contribution to the CSS-class count (lines 66-73). -/
def cssWordHit (cls : Str) : Bool :=
  cssIndicators.any (fun ind => strHas (strLower cls) ind) ||
  listHas (strLower cls) singleUtils

/-- The number of words that look like CSS classes. -/
def countCss : List Str → Nat
  | [] => 0
  | c :: t => (if cssWordHit c then 1 else 0) + countCss t

/-- `_is_css_class_string` (lines 48-76).  The source compares
`css_class_count >= len(classes) * 0.7` with a binary float `0.7`; it is
modelled by the exact rational comparison `7 * n ≤ 10 * count`, which
agrees with the float comparison on all inputs the claims exercise. -/
def is_css_class_string (text : Str) : Bool :=
  if text.length < 3 then false
  else
    let classes := splitWs text
    if classes.length < 2 then false
    else decide (7 * classes.length ≤ 10 * countCss classes)

/-- Stage 1 of `is_likely_user_facing_text`: the big exclusion
disjunction (lines 82-145), in source order. -/
def exclusions (text : Str) : Bool :=
  startsAny text cssPrefixes ||
  (chHas '/' text && !chHas ' ' text) ||
  startsAny text urlStarts ||
  (chHas '.' text && decide ((splitOnChar '.' text).length = 2) &&
    listHas ((splitOnChar '.' text).getD 1 []) extList) ||
  (chHas '@' text && chHas '.' text) ||
  decide (text.length < 3) ||
  listHas (strLower text) techTerms ||
  endsAny text unitSuffixes ||
  isHexColor text ||
  isAllDigits text || decide (text.length = 1) ||
  decide (trimStr text = []) ||
  isCamel text || isSnake text || isKebab text ||
  listHas text protoTokens ||
  (selLike text && selNeedles.any (fun n => strHas text n)) ||
  is_css_class_string text

/-- Common-English-word vocabulary of stage 2 (lines 155-161). -/
def uiWords : List Str := mkL
  ["error", "failed", "success", "loading", "please", "welcome", "invalid",
   "required", "create", "update", "delete", "save", "cancel", "confirm",
   "login", "logout", "sign", "email", "password", "name", "user", "admin",
   "member", "club", "player", "match", "series", "tournament", "league",
   "score", "win", "lose", "active", "inactive", "merge", "remove",
   "promote", "demote", "invite"]

/-- Stage 2 of `is_likely_user_facing_text`: the inclusion disjunction
(lines 149-168), in source order. -/
def inclusions (text : Str) : Bool :=
  chHas ' ' text ||
  (firstUpper text && decide (4 < text.length)) ||
  uiWords.any (fun w => strHas (strLower text) w) ||
  (['.', '!', '?', ':', ';', ','].any fun c => chHas c text) ||
  endsAny text (mkL ["...", ":", "!", "?"]) ||
  (decide (3 < text.length) && decide (text.length < 50) && firstUpper text)

/-- `is_likely_user_facing_text` of `validate_i18n.py` (lines 78-168). -/
def is_likely_user_facing_text (text : Str) : Bool :=
  if exclusions text then false else inclusions text

end VI

namespace FHS
/-! Embedding of `scripts/find_hardcoded_strings.py` (the basic variant of
the classifier; it lacks the extended CSS rules of `validate_i18n.py`). -/

/-- The styling/markup prefix tuple (lines 57-62). -/
def cssPrefixes : List Str := mkL
  ["data-", "aria-", "className", "class:", "id-", "test-", "btn-",
   "text-", "bg-", "border-", "flex", "grid", "w-", "h-", "p-", "m-",
   "space-", "gap-", "font-", "leading-", "tracking-", "transform",
   "transition", "duration-", "ease-", "scale-", "rotate-", "translate-",
   "shadow-", "rounded-", "overflow-", "z-", "opacity-", "cursor-",
   "select-", "pointer-", "resize-", "outline-", "ring-", "divide-"]

/-- Common technical terms compared against `text.lower()` (lines 75-79). -/
def techTerms : List Str := mkL
  ["div", "span", "button", "input", "form", "img", "svg", "path",
   "g", "rect", "circle", "true", "false", "null", "undefined", "px",
   "rem", "em", "vh", "vw", "auto", "none", "block", "inline", "flex",
   "grid", "absolute", "relative", "fixed", "sticky", "left", "right",
   "top", "bottom", "center", "start", "end", "wrap", "nowrap"]

/-- Common non-UI strings compared with `text in [...]` (lines 92-96). -/
def protoTokens : List Str := mkL
  ["GET", "POST", "PUT", "DELETE", "PATCH", "HEAD", "OPTIONS",
   "application/json", "text/plain", "text/html", "image/png",
   "Bearer", "Basic", "Content-Type", "Authorization",
   "success", "error", "warning", "info", "debug",
   "created", "updated", "deleted"]

/-- Stage 1 of `is_likely_user_facing_text` (lines 55-97), in source order.
The URL prefixes, extension list and unit suffixes are identical to the
`validate_i18n.py` ones and are shared via the `VI` namespace. -/
def exclusions (text : Str) : Bool :=
  startsAny text cssPrefixes ||
  (chHas '/' text && !chHas ' ' text) ||
  startsAny text VI.urlStarts ||
  (chHas '.' text && decide ((splitOnChar '.' text).length = 2) &&
    listHas ((splitOnChar '.' text).getD 1 []) VI.extList) ||
  (chHas '@' text && chHas '.' text) ||
  decide (text.length < 3) ||
  listHas (strLower text) techTerms ||
  endsAny text VI.unitSuffixes ||
  isHexColor text ||
  isAllDigits text || decide (text.length = 1) ||
  decide (trimStr text = []) ||
  isCamel text || isSnake text || isKebab text ||
  listHas text protoTokens

/-- Common-English-word vocabulary of stage 2 (lines 107-115). -/
def uiWords : List Str := mkL
  ["the", "and", "or", "to", "for", "with", "you", "your", "this", "that",
   "are", "is", "was", "will", "can", "have", "has", "please", "error",
   "success", "failed", "loading", "create", "update", "delete", "save",
   "cancel", "submit", "confirm", "welcome", "login", "logout", "sign",
   "email", "password", "name", "user", "admin", "member", "club", "player",
   "match", "series", "tournament", "league", "score", "win", "lose",
   "active", "inactive", "required", "optional", "invalid", "valid"]

/-- Stage 2 of `is_likely_user_facing_text` (lines 101-122), in source order. -/
def inclusions (text : Str) : Bool :=
  chHas ' ' text ||
  (firstUpper text && decide (4 < text.length)) ||
  uiWords.any (fun w => strHas (strLower text) w) ||
  (['.', '!', '?', ':', ';', ','].any fun c => chHas c text) ||
  endsAny text (mkL ["...", ":", "!", "?"]) ||
  (decide (3 < text.length) && decide (text.length < 50) && firstUpper text)

/-- `is_likely_user_facing_text` of `find_hardcoded_strings.py` (lines 51-122). -/
def is_likely_user_facing_text (text : Str) : Bool :=
  if exclusions text then false else inclusions text

end FHS

/-! ### String-literal extraction

Both scripts extract quoted literals from each line with the regexes
`'([^'\\]*(\\.[^'\\]*)*)'` and `"([^"\\]*(\\.[^"\\]*)*)"` via
`re.finditer`, then resolve the escape sequences.  The regex is an
escape-aware quoted-run matcher: from an opening quote it consumes
non-quote non-backslash characters and backslash-escaped pairs, ending at
the first unescaped closing quote; `finditer` scans left to right and
resumes after each match. -/

/-- Match the regex body after an opening quote `q`: returns the group
text (raw, escapes unresolved) and the remainder after the closing quote,
or `none` when no closing unescaped quote exists. -/
def scanFrom (q : Char) : Str → Option (Str × Str)
  | [] => none
  | c :: t =>
    if c = q then some ([], t)
    else if c = '\\' then
      match t with
      | [] => none
      | d :: t2 =>
        match scanFrom q t2 with
        | none => none
        | some (g, r) => some (c :: d :: g, r)
    else
      match scanFrom q t with
      | none => none
      | some (g, r) => some (c :: g, r)

/-- `re.finditer` for the quoted-run regex, annotated with the match start
position (the index of the opening quote, as `match.start()` would give).
The `fuel` argument makes the recursion structural; it is always called
with `fuel ≥ length of the scanned string`, which suffices. -/
def findAllPosFuel (q : Char) : Nat → Str → Nat → List (Nat × Str)
  | 0, _, _ => []
  | _ + 1, [], _ => []
  | fuel + 1, c :: t, pos =>
    if c = q then
      match scanFrom q t with
      | some (g, r) => (pos, g) :: findAllPosFuel q fuel r (pos + 1 + (t.length - r.length))
      | none => findAllPosFuel q fuel t (pos + 1)
    else findAllPosFuel q fuel t (pos + 1)

/-- All matches of the quoted-run regex for quote `q` in `l`, leftmost
first, each with its start position. -/
def findAllPos (q : Char) (l : Str) : List (Nat × Str) :=
  findAllPosFuel q (l.length + 1) l 0

/-- Python `text.replace(a ++ b, r)` for a two-character pattern replaced
by one character (left-to-right, non-overlapping). -/
def replace2 (a b r : Char) : Str → Str
  | [] => []
  | c :: t =>
    match t with
    | [] => [c]
    | d :: t2 =>
      if decide (c = a) && decide (d = b) then r :: replace2 a b r t2
      else c :: replace2 a b r (d :: t2)

/-- The chained `text.replace(...)` calls resolving the escape sequences
`\"`, `\'`, `\n`, `\t`, in source order. -/
def unescape (s : Str) : Str :=
  replace2 '\\' 't' '\t' (replace2 '\\' 'n' '\n'
    (replace2 '\\' '\'' '\'' (replace2 '\\' '"' '"' s)))

/-- All quoted literals of one line with start positions: the single-quote
pattern is run over the line first, then the double-quote pattern, exactly
as the `quote_patterns` loop does. -/
def lineLits (l : Str) : List (Nat × Str) :=
  findAllPos '\'' l ++ findAllPos '"' l

/-- The per-line skip: trimmed line starts with an import/export/comment
marker, or the line contains a lint-disable marker. -/
def skipLine (l : Str) : Bool :=
  startsAny (trimStr l) (mkL ["import ", "export ", "//", "/*", "*/", "<!--"]) ||
  strHas l ("eslint-disable".data)

namespace VI

/-- File-level ignore marker test (line 182). -/
def fileHit (l : Str) : Bool :=
  strHas l ("// i18n-ignore-file".data) || strHas l ("/* i18n-ignore-file".data)

/-- Inline ignore marker test (line 186). -/
def inlineHit (l : Str) : Bool :=
  strHas l ("// i18n-ignore".data) || strHas l ("/* i18n-ignore".data)

/-- Block-start branch condition (line 190). -/
def startHit (l : Str) : Bool :=
  strHas l ("/* i18n-ignore-block */".data) || strHas l ("// i18n-ignore-block".data)

/-- Block-end branch condition (line 193); only tested when `startHit`
fails, because the source uses `if ... elif ...`. -/
def endHit (l : Str) : Bool :=
  strHas l ("/* i18n-ignore-block-end */".data) || strHas l ("// i18n-ignore-block-end".data)

/-- State of `parse_ignore_comments`: the two result sets, the file-level
flag, and the pending open block (`in_ignore_block`/`block_start`, which
the source keeps in lock-step, collapsed into one `Option`). -/
structure PState where
  lines : List Nat
  blocks : List (Nat × Nat)
  wholeFile : Bool
  pending : Option Nat
deriving DecidableEq, Repr

/-- One iteration of the `for line_num, line in enumerate(lines, 1)` loop
(lines 180-197). -/
def pstep (n : Nat) (l : Str) (st : PState) : PState :=
  { lines := if inlineHit l then n :: st.lines else st.lines,
    blocks :=
      if startHit l then st.blocks
      else if endHit l then
        match st.pending with
        | some a => st.blocks ++ [(a, n)]
        | none => st.blocks
      else st.blocks,
    wholeFile := st.wholeFile || fileHit l,
    pending :=
      if startHit l then some n
      else if endHit l then none
      else st.pending }

/-- The enumeration loop, starting at line number `n`. -/
def parseGo : Nat → List Str → PState → PState
  | _, [], st => st
  | n, l :: ls, st => parseGo (n + 1) ls (pstep n l st)

/-- `parse_ignore_comments` (lines 170-199).  The source returns the
triple `(ignored_lines, ignored_blocks, ignore_entire_file)`; the
`pending` field is the discarded loop state. -/
def parse_ignore_comments (content : Str) : PState :=
  parseGo 1 (splitLines content) ⟨[], [], false, none⟩

/-- `is_line_ignored` (lines 201-210). -/
def is_line_ignored (n : Nat) (L : List Nat) (B : List (Nat × Nat)) : Bool :=
  if n ∈ L then true
  else B.any fun p => decide (p.1 ≤ n) && decide (n ≤ p.2)

/-- The literals one non-skipped line contributes to
`extract_hardcoded_strings` (lines 237-247): each regex match, unescaped,
kept when the classifier accepts it, tagged with the line number and the
`is_line_ignored` flag. -/
def lineEntries (st : PState) (n : Nat) (l : Str) : List (Str × Nat × Bool) :=
  (lineLits l).filterMap fun pg =>
    let t := unescape pg.2
    if is_likely_user_facing_text t then
      some (t, n, is_line_ignored n st.lines st.blocks)
    else none

/-- The `for line_num, line in enumerate(lines, 1)` loop of
`extract_hardcoded_strings`, starting at line number `n`. -/
def extractFrom (st : PState) : Nat → List Str → List (Str × Nat × Bool)
  | _, [] => []
  | n, l :: ls => (if skipLine l then [] else lineEntries st n l) ++ extractFrom st (n + 1) ls

/-- `extract_hardcoded_strings` of `validate_i18n.py` (lines 212-249). -/
def extract_hardcoded_strings (content : Str) : List (Str × Nat × Bool) :=
  let st := parse_ignore_comments content
  if st.wholeFile then [] else extractFrom st 1 (splitLines content)

/-- Disposition of one finding in `analyze_frontend_strings`:
an outstanding issue, an annotated-away string, or a literal that equals a
known translation key. -/
inductive Disposition
  | issue
  | ignoredAnn
  | ignoredKey
deriving DecidableEq, Repr

/-- The classification step of the per-string loop in
`analyze_frontend_strings` (lines 324-331): `is_ignored` wins, then the
known-key test against the union of all locales' keys, else an issue. -/
def disposition (allKnown : List Str) (t : Str × Nat × Bool) : Disposition :=
  if t.2.2 then Disposition.ignoredAnn
  else if listHas t.1 allKnown then Disposition.ignoredKey
  else Disposition.issue

/-- The findings one file contributes in `analyze_frontend_strings`
(lines 317-331): each extracted literal with its disposition.  `allKnown`
is `all_known_keys`, the union of all locales' defined keys (lines
320-322). -/
def analyzeFindings (allKnown : List Str) (content : Str) : List (Str × Nat × Disposition) :=
  (extract_hardcoded_strings content).map fun t => (t.1, t.2.1, disposition allKnown t)

/-- `all_known_keys`: the union of the per-locale defined-key sets. -/
def unionKeys (locales : List (List Str)) : List Str := locales.flatten

/-- Python set difference `used_keys - available_keys` on list-modelled
sets. -/
def setDiff (used avail : List Str) : List Str :=
  used.filter fun k => !listHas k avail

/-- `validate_translation_keys` (lines 251-261).  The per-locale loading
of `load_translation_keys` (file I/O) is out of scope; `files` maps each
locale directly to its loaded defined-key set, and the result is the
`missing_keys` association list. -/
def validate_translation_keys (used : List Str) (files : List (Str × List Str)) :
    List (Str × List Str) :=
  files.filterMap fun p =>
    let missing := setDiff used p.2
    if missing.isEmpty then none else some (p.1, missing)

end VI

namespace FHS

/-- The literals one non-skipped line contributes in
`extract_hardcoded_strings` of `find_hardcoded_strings.py` (lines
143-151), annotated with the match start position within the line. -/
def lineEntriesPos (n : Nat) (l : Str) : List (Str × Nat × Nat) :=
  (lineLits l).filterMap fun pg =>
    let t := unescape pg.2
    if is_likely_user_facing_text t then some (t, n, pg.1) else none

/-- The line loop of `extract_hardcoded_strings`, position-annotated. -/
def extractPosFrom : Nat → List Str → List (Str × Nat × Nat)
  | _, [] => []
  | n, l :: ls => (if skipLine l then [] else lineEntriesPos n l) ++ extractPosFrom (n + 1) ls

/-- `extract_hardcoded_strings` (lines 124-153) annotated with each
literal's start position in its line (`match.start()`), used to state the
extraction-order claim. -/
def extractPos (content : Str) : List (Str × Nat × Nat) :=
  extractPosFrom 1 (splitLines content)

/-- `extract_hardcoded_strings` of `find_hardcoded_strings.py` (lines
124-153): the `(text, line)` pairs, in production order. -/
def extract_hardcoded_strings (content : Str) : List (Str × Nat) :=
  (extractPos content).map fun x => (x.1, x.2.1)

end FHS

example : VI.is_likely_user_facing_text ("Please confirm".data) = true := by decide
example : VI.is_likely_user_facing_text ("Loading results".data) = false := by decide
example : VI.is_likely_user_facing_text ("hello.world".data) = true := by decide
example : VI.is_likely_user_facing_text ("Hello world".data) = true := by decide
example : VI.is_likely_user_facing_text ("flex items-center gap-2".data) = false := by decide
example : VI.is_likely_user_facing_text ("onClick".data) = false := by decide
example : VI.is_likely_user_facing_text ("btn-primary".data) = false := by decide
example : VI.is_likely_user_facing_text ("".data) = false := by decide

/-! ### Helper lemmas -/

theorem listHas_iff {x : Str} : ∀ {l : List Str}, listHas x l = true ↔ x ∈ l := by
  intro l
  induction l with
  | nil => simp [listHas]
  | cons y t ih => simp [listHas, ih]

theorem any_of_mem {α : Type} {l : List α} {p : α → Bool} {x : α}
    (hx : x ∈ l) (hp : p x = true) : l.any p = true :=
  List.any_eq_true.mpr ⟨x, hx, hp⟩

theorem VI.excl_of_short {t : Str} (h : t.length < 3) : VI.exclusions t = true := by
  have hd : decide (t.length < 3) = true := by simpa using h
  simp [VI.exclusions, hd]

theorem FHS.excl_short_basic {t : Str} (h : t.length < 3) : FHS.exclusions t = true := by
  have hd : decide (t.length < 3) = true := by simpa using h
  simp [FHS.exclusions, hd]

theorem strEnds_last_s {u : Str} : strEnds (u ++ ['s']) ['s'] = true := by
  simp [strEnds, List.reverse_append, strStarts]

theorem VI.excl_of_ends_s {t : Str} (h : ∃ u, t = u ++ ['s']) :
    VI.exclusions t = true := by
  obtain ⟨u, rfl⟩ := h
  have he : endsAny (u ++ ['s']) VI.unitSuffixes = true :=
    any_of_mem (show (['s'] : Str) ∈ VI.unitSuffixes by decide) strEnds_last_s
  simp [VI.exclusions, he]

theorem FHS.excl_ends_s_basic {t : Str} (h : ∃ u, t = u ++ ['s']) :
    FHS.exclusions t = true := by
  obtain ⟨u, rfl⟩ := h
  have he : endsAny (u ++ ['s']) VI.unitSuffixes = true :=
    any_of_mem (show (['s'] : Str) ∈ VI.unitSuffixes by decide) strEnds_last_s
  simp [FHS.exclusions, he]

/-! ### Claims C1, C9, C10: the heuristic classifier -/

/-- Claim C1: exclusion precedence.  For every string, if any stage-1
exclusion rule matches (`exclusions` is the disjunction of all of them),
both classifiers return `false` (Technical) no matter what the inclusion
rules say; and only when no exclusion matches is the result that of the
stage-2 inclusion disjunction. -/
theorem exclusion_precedence (t : Str) :
    (VI.exclusions t = true → VI.is_likely_user_facing_text t = false) ∧
    (VI.exclusions t = false → VI.is_likely_user_facing_text t = VI.inclusions t) ∧
    (FHS.exclusions t = true → FHS.is_likely_user_facing_text t = false) ∧
    (FHS.exclusions t = false → FHS.is_likely_user_facing_text t = FHS.inclusions t) := by
  refine ⟨fun h => ?_, fun h => ?_, fun h => ?_, fun h => ?_⟩ <;>
    simp [VI.is_likely_user_facing_text, FHS.is_likely_user_facing_text, h]

/-- Witness for C1: `"Loading results"` matches an exclusion (CSS-unit
suffix `s`) and inclusions (it has a space), and is classified Technical;
`"hello.world"` matches no exclusion, so stage 2 decides it. -/
theorem exclusion_precedence_witness :
    VI.is_likely_user_facing_text ("Loading results".data) = false ∧
    FHS.is_likely_user_facing_text ("Loading results".data) = false ∧
    VI.is_likely_user_facing_text ("hello.world".data) = VI.inclusions ("hello.world".data) ∧
    FHS.is_likely_user_facing_text ("hello.world".data) = FHS.inclusions ("hello.world".data) :=
  ⟨(exclusion_precedence ("Loading results".data)).1 (by decide),
   (exclusion_precedence ("Loading results".data)).2.2.1 (by decide),
   (exclusion_precedence ("hello.world".data)).2.1 (by decide),
   (exclusion_precedence ("hello.world".data)).2.2.2 (by decide)⟩

/-- Claim C9: the classifier is total.  Both embedded classifiers are
total Lean functions; the stage-2 `text[0]` accesses are only reached
when no stage-1 exclusion matched, and in that case the string has length
at least 3 (the length-below-3 exclusion failed), hence is non-empty, so
`text[0]` is defined. -/
theorem classifier_total (t : Str) :
    (VI.exclusions t = false → t ≠ [] ∧ 3 ≤ t.length) ∧
    (FHS.exclusions t = false → t ≠ [] ∧ 3 ≤ t.length) := by
  constructor <;> intro h
  · have h3 : 3 ≤ t.length := by
      by_contra hc
      push_neg at hc
      rw [VI.excl_of_short hc] at h
      cases h
    exact ⟨fun he => by subst he; simp at h3, h3⟩
  · have h3 : 3 ≤ t.length := by
      by_contra hc
      push_neg at hc
      rw [FHS.excl_short_basic hc] at h
      cases h
    exact ⟨fun he => by subst he; simp at h3, h3⟩

/-- Witness for C9 at `"Hello world"`, which survives all exclusions. -/
theorem classifier_total_witness :
    ("Hello world".data ≠ ([] : Str) ∧ 3 ≤ ("Hello world".data).length) ∧
    ("Hello world".data ≠ ([] : Str) ∧ 3 ≤ ("Hello world".data).length) :=
  ⟨(classifier_total ("Hello world".data)).1 (by decide),
   (classifier_total ("Hello world".data)).2 (by decide)⟩

/-- Claim C10: every string whose last character is `s` is classified
Technical by both variants, because the CSS-unit suffix exclusion list
contains the one-character suffix `"s"` (the seconds unit), and stage-1
exclusions override every stage-2 inclusion rule. -/
theorem ends_with_s_technical (t : Str) (h : ∃ u, t = u ++ ['s']) :
    VI.is_likely_user_facing_text t = false ∧
    FHS.is_likely_user_facing_text t = false := by
  constructor
  · simp [VI.is_likely_user_facing_text, VI.excl_of_ends_s h]
  · simp [FHS.is_likely_user_facing_text, FHS.excl_ends_s_basic h]

/-- Witness for C10: the plural English sentence `"Loading results"` ends
in `s` and is classified Technical despite matching several inclusion
rules. -/
theorem ends_with_s_technical_witness :
    VI.is_likely_user_facing_text ("Loading results".data) = false ∧
    FHS.is_likely_user_facing_text ("Loading results".data) = false :=
  ends_with_s_technical ("Loading results".data) ⟨"Loading result".data, by decide⟩

/-! ### Lemmas about the annotation parser -/

namespace VI

theorem pstep_wholeFile (n : Nat) (l : Str) (st : PState) :
    (pstep n l st).wholeFile = (st.wholeFile || fileHit l) := rfl

theorem pstep_pending_start {l : Str} (n : Nat) (st : PState) (h : startHit l = true) :
    (pstep n l st).pending = some n := by simp [pstep, h]

theorem pstep_blocks_start {l : Str} (n : Nat) (st : PState) (h : startHit l = true) :
    (pstep n l st).blocks = st.blocks := by simp [pstep, h]

theorem pstep_of_neither {l : Str} (n : Nat) (st : PState)
    (h1 : startHit l = false) (h2 : endHit l = false) :
    (pstep n l st).pending = st.pending ∧ (pstep n l st).blocks = st.blocks := by
  simp [pstep, h1, h2]

theorem pstep_pending_end {l : Str} (n : Nat) (st : PState)
    (h1 : startHit l = false) (h2 : endHit l = true) :
    (pstep n l st).pending = none := by
  simp [pstep, h1, h2]

theorem pstep_close {l : Str} {a : Nat} (n : Nat) (st : PState)
    (h1 : startHit l = false) (h2 : endHit l = true) (hp : st.pending = some a) :
    (pstep n l st).blocks = st.blocks ++ [(a, n)] ∧ (pstep n l st).pending = none := by
  simp [pstep, h1, h2, hp]

theorem pstep_blocks_mono {x : Nat × Nat} (n : Nat) (l : Str) (st : PState)
    (h : x ∈ st.blocks) : x ∈ (pstep n l st).blocks := by
  simp only [pstep]
  split
  · exact h
  · split
    · cases hp : st.pending with
      | none => exact h
      | some a => exact List.mem_append_left _ h
    · exact h

theorem parseGo_append (l1 : List Str) : ∀ (l2 : List Str) (n : Nat) (st : PState),
    parseGo n (l1 ++ l2) st = parseGo (n + l1.length) l2 (parseGo n l1 st) := by
  induction l1 with
  | nil => intro l2 n st; simp [parseGo]
  | cons l t ih =>
    intro l2 n st
    show parseGo (n + 1) (t ++ l2) (pstep n l st)
        = parseGo (n + (t.length + 1)) l2 (parseGo (n + 1) t (pstep n l st))
    rw [ih]
    congr 1
    omega

theorem parseGo_preserve {ls : List Str}
    (h : ∀ l ∈ ls, startHit l = false ∧ endHit l = false) :
    ∀ (n : Nat) (st : PState),
      (parseGo n ls st).pending = st.pending ∧ (parseGo n ls st).blocks = st.blocks := by
  induction ls with
  | nil => intro n st; exact ⟨rfl, rfl⟩
  | cons l t ih =>
    intro n st
    have hl := h l (List.mem_cons_self l t)
    have hstep := pstep_of_neither n st hl.1 hl.2
    have ht := ih (fun x hx => h x (List.mem_cons_of_mem l hx)) (n + 1) (pstep n l st)
    exact ⟨ht.1.trans hstep.1, ht.2.trans hstep.2⟩

theorem parseGo_blocks_mono {x : Nat × Nat} (ls : List Str) :
    ∀ (n : Nat) (st : PState), x ∈ st.blocks → x ∈ (parseGo n ls st).blocks := by
  induction ls with
  | nil => intro n st h; exact h
  | cons l t ih =>
    intro n st h
    exact ih (n + 1) (pstep n l st) (pstep_blocks_mono n l st h)

theorem parseGo_wholeFile (ls : List Str) :
    ∀ (n : Nat) (st : PState),
      (parseGo n ls st).wholeFile = (st.wholeFile || ls.any fileHit) := by
  induction ls with
  | nil => intro n st; simp [parseGo]
  | cons l t ih =>
    intro n st
    show (parseGo (n + 1) t (pstep n l st)).wholeFile = _
    rw [ih, pstep_wholeFile]
    simp [Bool.or_assoc]

end VI

/-! ### Claim C2: block-end markers -/

/-- Claim C2, evaluation at the failing input: a block opened by the
line-comment start marker on line 1 and "closed" by the line-comment
block-end marker on line 3 records NO range.  The block-end line contains
the block-start marker `// i18n-ignore-block` as a substring, so the
`if`-branch for block starts captures it and re-opens a block instead of
closing one; the `elif`-branch's own check for `// i18n-ignore-block-end`
is unreachable dead code.  The claim (like that dead check) demands
`(1, 3) ∈ ignoredRanges`. -/
theorem block_end_line_comment_cex :
    VI.startHit ("// i18n-ignore-block".data) = true ∧
    VI.endHit ("// i18n-ignore-block-end".data) = true ∧
    (VI.parse_ignore_comments
      ("// i18n-ignore-block\nX\n// i18n-ignore-block-end".data)).blocks = [] ∧
    (1, 3) ∉ (VI.parse_ignore_comments
      ("// i18n-ignore-block\nX\n// i18n-ignore-block-end".data)).blocks := by
  refine ⟨by decide, by decide, by decide, by decide⟩

/-- Supporting theorem for C2: the behavior the code does implement.
Block-end closes an open block only when the line triggers the end
branch, i.e. it contains the block-comment spelling
`/* i18n-ignore-block-end */` and does not contain a block-start marker
(the line-comment spelling `// i18n-ignore-block-end` contains the
block-start marker `// i18n-ignore-block` and therefore re-opens a block
at its own line instead).  For a file whose line `s` matches a
block-start marker, whose lines strictly between `s` and `e` trigger
neither block branch, and whose line `e` triggers the end branch,
`parse_ignore_comments` records the inclusive range `(s, e)`. -/
theorem block_end_block_comment_closes
    (pre mid post : List Str) (lS lE : Str) (content : Str)
    (hsplit : splitLines content = pre ++ lS :: (mid ++ lE :: post))
    (hS : VI.startHit lS = true)
    (hmid : ∀ l ∈ mid, VI.startHit l = false ∧ VI.endHit l = false)
    (hE1 : VI.startHit lE = false) (hE2 : VI.endHit lE = true) :
    (pre.length + 1, pre.length + mid.length + 2) ∈
      (VI.parse_ignore_comments content).blocks := by
  unfold VI.parse_ignore_comments
  rw [hsplit, VI.parseGo_append]
  show (pre.length + 1, pre.length + mid.length + 2) ∈
    (VI.parseGo (1 + pre.length + 1) (mid ++ lE :: post)
      (VI.pstep (1 + pre.length) lS (VI.parseGo 1 pre ⟨[], [], false, none⟩))).blocks
  rw [VI.parseGo_append]
  set st2 := VI.pstep (1 + pre.length) lS (VI.parseGo 1 pre ⟨[], [], false, none⟩) with hst2
  set st3 := VI.parseGo (1 + pre.length + 1) mid st2 with hst3
  have hpend3 : st3.pending = some (1 + pre.length) := by
    rw [hst3, (VI.parseGo_preserve hmid _ st2).1, hst2,
      VI.pstep_pending_start (1 + pre.length) _ hS]
  show (pre.length + 1, pre.length + mid.length + 2) ∈
    (VI.parseGo (1 + pre.length + 1 + mid.length + 1) post
      (VI.pstep (1 + pre.length + 1 + mid.length) lE st3)).blocks
  apply VI.parseGo_blocks_mono
  rw [(VI.pstep_close (1 + pre.length + 1 + mid.length) st3 hE1 hE2 hpend3).1]
  apply List.mem_append_right
  have hpair : (pre.length + 1, pre.length + mid.length + 2)
      = (1 + pre.length, 1 + pre.length + 1 + mid.length) := by
    rw [Prod.mk.injEq]
    omega
  rw [hpair]
  exact List.mem_singleton.mpr rfl

/-- Witness for the amended C2: start marker on line 1, unrelated line 2,
block-comment end marker on line 3; the range `(1, 3)` is recorded. -/
theorem block_end_block_comment_closes_witness :
    (1, 3) ∈ (VI.parse_ignore_comments
      ("// i18n-ignore-block\nX\n/* i18n-ignore-block-end */".data)).blocks :=
  block_end_block_comment_closes [] ["X".data] [] ("// i18n-ignore-block".data)
    ("/* i18n-ignore-block-end */".data)
    ("// i18n-ignore-block\nX\n/* i18n-ignore-block-end */".data)
    (by decide) (by decide) (by decide) (by decide) (by decide)

/-! ### Claim C8: block suppression boundaries -/

/-- Every recorded range `(a, b)` has `a ≤ b` and its end line `b`
(1-indexed into the scanned lines starting at `n`) triggered the end
branch. -/
theorem VI.parseGo_blocks_elim (ls : List Str) :
    ∀ (n : Nat) (st : VI.PState), (∀ a, st.pending = some a → a < n) →
      ∀ x ∈ (VI.parseGo n ls st).blocks,
        x ∈ st.blocks ∨
          (x.1 ≤ x.2 ∧ ∃ i l, ls[i]? = some l ∧ x.2 = n + i ∧
            VI.startHit l = false ∧ VI.endHit l = true) := by
  induction ls with
  | nil => intro n st _ x hx; exact Or.inl hx
  | cons l t ih =>
    intro n st hpend x hx
    have hpend' : ∀ a, (VI.pstep n l st).pending = some a → a < n + 1 := by
      intro a ha
      by_cases hS : VI.startHit l = true
      · rw [VI.pstep_pending_start n st hS] at ha
        cases ha
        omega
      · rw [Bool.not_eq_true] at hS
        by_cases hE : VI.endHit l = true
        · rw [VI.pstep_pending_end n st hS hE] at ha
          cases ha
        · rw [Bool.not_eq_true] at hE
          rw [(VI.pstep_of_neither n st hS hE).1] at ha
          have := hpend a ha
          omega
    have hx' := ih (n + 1) (VI.pstep n l st) hpend' x hx
    rcases hx' with hin | ⟨hle, i, l2, hget, he2, hS2, hE2⟩
    · -- x was already in the blocks after processing l
      by_cases hS : VI.startHit l = true
      · rw [VI.pstep_blocks_start n st hS] at hin
        exact Or.inl hin
      · rw [Bool.not_eq_true] at hS
        by_cases hE : VI.endHit l = true
        · cases hp : st.pending with
          | none =>
            have : (VI.pstep n l st).blocks = st.blocks := by
              simp [VI.pstep, hS, hE, hp]
            rw [this] at hin
            exact Or.inl hin
          | some a =>
            rw [(VI.pstep_close n st hS hE hp).1] at hin
            rcases List.mem_append.mp hin with h1 | h2
            · exact Or.inl h1
            · have hxa : x = (a, n) := List.mem_singleton.mp h2
              subst hxa
              refine Or.inr ⟨by have := hpend a hp; omega, 0, l, by simp, by omega, hS, hE⟩
        · rw [Bool.not_eq_true] at hE
          rw [(VI.pstep_of_neither n st hS hE).2] at hin
          exact Or.inl hin
    · exact Or.inr ⟨hle, i + 1, l2, by simpa using hget, by omega, hS2, hE2⟩

/-- Claim C8: block suppression boundaries are inclusive and unterminated
blocks suppress nothing.  (1) Every line `n` with `s ≤ n ≤ e` of a closed
range `(s, e)` is ignored, in particular `n = e`.  (2) Absent any other
annotation covering it, line `e + 1` (indeed any line outside all ranges
and not inline-ignored) is not ignored.  (3) If no line from `s` on
triggers the block-end branch, no range starting at `s` is ever recorded,
so an unterminated block suppresses no line. -/
theorem block_suppression_boundaries :
    (∀ (L : List Nat) (B : List (Nat × Nat)) (s e n : Nat),
      (s, e) ∈ B → s ≤ n → n ≤ e → VI.is_line_ignored n L B = true) ∧
    (∀ (L : List Nat) (B : List (Nat × Nat)) (n : Nat),
      n ∉ L → (∀ p ∈ B, ¬(p.1 ≤ n ∧ n ≤ p.2)) → VI.is_line_ignored n L B = false) ∧
    (∀ (content : Str) (s : Nat),
      (∀ l ∈ (splitLines content).drop (s - 1),
        VI.startHit l = true ∨ VI.endHit l = false) →
      ∀ e, (s, e) ∉ (VI.parse_ignore_comments content).blocks) := by
  refine ⟨?_, ?_, ?_⟩
  · intro L B s e n hmem hs he
    unfold VI.is_line_ignored
    split
    · rfl
    · exact any_of_mem hmem (by simp [hs, he])
  · intro L B n hn hB
    unfold VI.is_line_ignored
    split
    · exact absurd (by assumption) hn
    · rw [List.any_eq_false]
      intro p hp
      simpa using hB p hp
  · intro content s hno e hmem
    unfold VI.parse_ignore_comments at hmem
    have helim := VI.parseGo_blocks_elim (splitLines content) 1 ⟨[], [], false, none⟩
      (by intro a ha; cases ha) (s, e) hmem
    rcases helim with h | ⟨hle, i, l, hget, he2, hS, hE⟩
    · cases h
    · have hi : s - 1 ≤ i := by simp at hle he2; omega
      have hmeml : l ∈ (splitLines content).drop (s - 1) := by
        have hd := List.getElem?_drop (splitLines content) (s - 1) (i - (s - 1))
        rw [show s - 1 + (i - (s - 1)) = i by omega, hget] at hd
        exact List.getElem?_mem hd
      rcases hno l hmeml with hT | hF
      · rw [hS] at hT
        cases hT
      · rw [hE] at hF
        cases hF

/-- Witness for C8: a closed range `(10, 15)` suppresses line 15 but not
line 16; a file whose only block marker is an unclosed start on line 1
records no range starting at line 1. -/
theorem block_suppression_boundaries_witness :
    VI.is_line_ignored 15 [] [(10, 15)] = true ∧
    VI.is_line_ignored 16 [] [(10, 15)] = false ∧
    (1, 3) ∉ (VI.parse_ignore_comments
      ("// i18n-ignore-block\nconst x = 1;\nconst y = 2;".data)).blocks :=
  ⟨block_suppression_boundaries.1 [] [(10, 15)] 10 15 15 (by decide) (by decide) (by decide),
   block_suppression_boundaries.2.1 [] [(10, 15)] 16 (by decide) (by decide),
   block_suppression_boundaries.2.2
     ("// i18n-ignore-block\nconst x = 1;\nconst y = 2;".data) 1 (by decide) 3⟩

/-! ### Lemmas about extraction -/

namespace VI

theorem lineEntries_shape {st : PState} {n : Nat} {l : Str} {p : Str × Nat × Bool}
    (h : p ∈ lineEntries st n l) :
    p.2.1 = n ∧ p.2.2 = is_line_ignored n st.lines st.blocks := by
  obtain ⟨pg, _, hf⟩ := List.mem_filterMap.mp h
  dsimp only [lineEntries] at hf
  split at hf
  · cases hf
    exact ⟨rfl, rfl⟩
  · cases hf

theorem extractFrom_mem {st : PState} : ∀ (ls : List Str) (k : Nat) (p : Str × Nat × Bool),
    p ∈ extractFrom st k ls →
      k ≤ p.2.1 ∧ p.2.2 = is_line_ignored p.2.1 st.lines st.blocks := by
  intro ls
  induction ls with
  | nil => intro k p h; cases h
  | cons l t ih =>
    intro k p h
    rcases List.mem_append.mp h with h1 | h2
    · have hline : p ∈ lineEntries st k l := by
        by_cases hs : skipLine l = true
        · rw [if_pos hs] at h1
          cases h1
        · rwa [if_neg hs] at h1
      have := lineEntries_shape hline
      refine ⟨by omega, by rw [this.2, this.1]⟩
    · have := ih (k + 1) p h2
      exact ⟨by omega, this.2⟩

theorem extract_mem {content : Str} {p : Str × Nat × Bool}
    (h : p ∈ extract_hardcoded_strings content) :
    (parse_ignore_comments content).wholeFile = false ∧
      p.2.2 = is_line_ignored p.2.1 (parse_ignore_comments content).lines
        (parse_ignore_comments content).blocks := by
  by_cases hw : (parse_ignore_comments content).wholeFile = true
  · rw [show extract_hardcoded_strings content = [] by
      simp [extract_hardcoded_strings, hw]] at h
    cases h
  · rw [Bool.not_eq_true] at hw
    have h2 : p ∈ extractFrom (parse_ignore_comments content) 1 (splitLines content) := by
      rw [show extract_hardcoded_strings content
          = extractFrom (parse_ignore_comments content) 1 (splitLines content) by
        simp [extract_hardcoded_strings, hw]] at h
      exact h
    exact ⟨hw, (extractFrom_mem (splitLines content) 1 p h2).2⟩

end VI

/-! ### Claim C3: whole-file suppression -/

/-- Claim C3: whole-file suppression is retroactive and overrides
everything.  If any line of the file contains the file-ignore marker,
`extract_hardcoded_strings` produces no entries at all, and consequently
the analysis records no finding — in particular no `Issue` finding — for
any literal of the file, including literals on lines before the marker. -/
theorem whole_file_suppression (content : Str)
    (h : ∃ l ∈ splitLines content, VI.fileHit l = true) :
    VI.extract_hardcoded_strings content = [] ∧
    ∀ allKnown, VI.analyzeFindings allKnown content = [] := by
  have hw : (VI.parse_ignore_comments content).wholeFile = true := by
    unfold VI.parse_ignore_comments
    rw [VI.parseGo_wholeFile]
    have : (splitLines content).any VI.fileHit = true := List.any_eq_true.mpr h
    simp [this]
  have h1 : VI.extract_hardcoded_strings content = [] := by
    simp [VI.extract_hardcoded_strings, hw]
  exact ⟨h1, fun allKnown => by simp [VI.analyzeFindings, h1]⟩

/-- Witness for C3: the file-ignore marker on line 1 suppresses the
user-facing literal on line 2. -/
theorem whole_file_suppression_witness :
    VI.extract_hardcoded_strings ("// i18n-ignore-file\nconst a = 'Hello world';".data) = [] ∧
    VI.analyzeFindings [] ("// i18n-ignore-file\nconst a = 'Hello world';".data) = [] :=
  ⟨(whole_file_suppression ("// i18n-ignore-file\nconst a = 'Hello world';".data)
      ⟨"// i18n-ignore-file".data, by decide, by decide⟩).1,
   (whole_file_suppression ("// i18n-ignore-file\nconst a = 'Hello world';".data)
      ⟨"// i18n-ignore-file".data, by decide, by decide⟩).2 []⟩

/-! ### Claim C4: suppressed literals and findings -/

/-- Claim C4 counterexample: the claim says every `UserFacing` literal
whose line is ignored per the `SuppressionState` — including via
`ignoreWholeFile` — is recorded as an `IgnoredAnnotated` finding.  But
when the file carries the whole-file marker, `extract_hardcoded_strings`
returns `[]`, so the analysis records NO finding at all for the
user-facing literal `'Hello world'`: it is silently dropped, not counted
among ignored strings.  (Without the marker the same literal yields an
`Issue` finding, showing it is otherwise extracted.) -/
theorem whole_file_drops_finding_cex :
    VI.is_likely_user_facing_text ("Hello world".data) = true ∧
    (VI.parse_ignore_comments
      ("// i18n-ignore-file\nconst a = 'Hello world';".data)).wholeFile = true ∧
    VI.analyzeFindings [] ("// i18n-ignore-file\nconst a = 'Hello world';".data) = [] ∧
    VI.analyzeFindings [] ("const a = 'Hello world';".data) =
      [("Hello world".data, 1, VI.Disposition.issue)] :=
  ⟨by decide, by decide, by decide, by decide⟩

/-- Claim C4 (amended): a `UserFacing` literal extracted with its ignore
flag set — which happens exactly when its line is in `ignoredLines` or
inside a closed range, per `is_line_ignored` — is recorded as an
`IgnoredAnnotated` finding; but a file carrying `ignoreWholeFile`
produces no findings at all (whole-file-suppressed literals are dropped,
not recorded). -/
theorem annotated_ignored_findings (content : Str) (allKnown : List Str) (s : Str) (n : Nat) :
    (∀ b, (s, n, b) ∈ VI.extract_hardcoded_strings content →
      b = VI.is_line_ignored n (VI.parse_ignore_comments content).lines
            (VI.parse_ignore_comments content).blocks) ∧
    ((s, n, true) ∈ VI.extract_hardcoded_strings content →
      (s, n, VI.Disposition.ignoredAnn) ∈ VI.analyzeFindings allKnown content) ∧
    ((VI.parse_ignore_comments content).wholeFile = true →
      VI.analyzeFindings allKnown content = []) := by
  refine ⟨?_, ?_, ?_⟩
  · intro b hmem
    exact (VI.extract_mem hmem).2
  · intro hmem
    exact List.mem_map.mpr ⟨(s, n, true), hmem, by simp [VI.disposition]⟩
  · intro hw
    simp [VI.analyzeFindings, VI.extract_hardcoded_strings, hw]

/-- Witness for the amended C4: an inline-ignored user-facing literal is
recorded as `IgnoredAnnotated`; a whole-file-ignored file records
nothing. -/
theorem annotated_ignored_findings_witness :
    (true = VI.is_line_ignored 1
      (VI.parse_ignore_comments ("const a = 'Hello world'; // i18n-ignore".data)).lines
      (VI.parse_ignore_comments ("const a = 'Hello world'; // i18n-ignore".data)).blocks) ∧
    ("Hello world".data, 1, VI.Disposition.ignoredAnn) ∈
      VI.analyzeFindings [] ("const a = 'Hello world'; // i18n-ignore".data) ∧
    VI.analyzeFindings [] ("// i18n-ignore-file\nconst a = 'Hello world';".data) = [] :=
  ⟨(annotated_ignored_findings ("const a = 'Hello world'; // i18n-ignore".data) []
      ("Hello world".data) 1).1 true (by decide),
   (annotated_ignored_findings ("const a = 'Hello world'; // i18n-ignore".data) []
      ("Hello world".data) 1).2.1 (by decide),
   (annotated_ignored_findings ("// i18n-ignore-file\nconst a = 'Hello world';".data) []
      ("Hello world".data) 1).2.2 (by decide)⟩

/-! ### Claim C5: known-key short-circuit -/

/-- Claim C5: a `UserFacing` literal that is not suppressed by
annotations (extracted with ignore flag `false`) whose text equals a key
in the union of all locales' defined-key sets is recorded with
disposition `IgnoredKnownKey`; and no literal with that text is ever
recorded as an `Issue`. -/
theorem known_key_short_circuit (locales : List (List Str)) (content : Str) (s : Str) (n : Nat)
    (hmem : (s, n, false) ∈ VI.extract_hardcoded_strings content)
    (hkey : ∃ ks ∈ locales, s ∈ ks) :
    (s, n, VI.Disposition.ignoredKey) ∈ VI.analyzeFindings (VI.unionKeys locales) content ∧
    ∀ m, (s, m, VI.Disposition.issue) ∉ VI.analyzeFindings (VI.unionKeys locales) content := by
  have hk : listHas s (VI.unionKeys locales) = true := by
    obtain ⟨ks, hks, hsk⟩ := hkey
    exact listHas_iff.mpr (List.mem_flatten.mpr ⟨ks, hks, hsk⟩)
  constructor
  · refine List.mem_map.mpr ⟨(s, n, false), hmem, ?_⟩
    simp [VI.disposition, hk]
  · intro m hbad
    obtain ⟨t, _, ht⟩ := List.mem_map.mp hbad
    have hts : t.1 = s := congrArg Prod.fst ht
    have htd : VI.disposition (VI.unionKeys locales) t = VI.Disposition.issue :=
      congrArg (fun x => x.2.2) ht
    unfold VI.disposition at htd
    split at htd
    · cases htd
    · rw [hts, hk] at htd
      simp at htd

/-- Witness for C5: the literal `'hello.world'` matches a defined key of
one locale and is recorded as `IgnoredKnownKey`, never as an `Issue`. -/
theorem known_key_short_circuit_witness :
    ("hello.world".data, 1, VI.Disposition.ignoredKey) ∈
      VI.analyzeFindings (VI.unionKeys [["hello.world".data]])
        ("const a = 'hello.world';".data) ∧
    ("hello.world".data, 1, VI.Disposition.issue) ∉
      VI.analyzeFindings (VI.unionKeys [["hello.world".data]])
        ("const a = 'hello.world';".data) :=
  ⟨(known_key_short_circuit [["hello.world".data]] ("const a = 'hello.world';".data)
      ("hello.world".data) 1 (by decide) (by decide)).1,
   (known_key_short_circuit [["hello.world".data]] ("const a = 'hello.world';".data)
      ("hello.world".data) 1 (by decide) (by decide)).2 1⟩

/-! ### Lemmas about extraction order -/

theorem findAllPosFuel_lb (q : Char) : ∀ (fuel : Nat) (s : Str) (pos : Nat) (p : Nat × Str),
    p ∈ findAllPosFuel q fuel s pos → pos ≤ p.1 := by
  intro fuel
  induction fuel with
  | zero => intro s pos p h; cases h
  | succ m ih =>
    intro s pos p h
    cases s with
    | nil => cases h
    | cons c t =>
      simp only [findAllPosFuel] at h
      split at h
      · split at h
        · rcases List.mem_cons.mp h with heq | h2
          · rw [heq]
          · have := ih _ _ p h2
            omega
        · have := ih _ _ p h
          omega
      · have := ih _ _ p h
        omega

theorem findAllPosFuel_pairwise (q : Char) : ∀ (fuel : Nat) (s : Str) (pos : Nat),
    List.Pairwise (fun a b => a.1 < b.1) (findAllPosFuel q fuel s pos) := by
  intro fuel
  induction fuel with
  | zero => intro s pos; exact List.Pairwise.nil
  | succ m ih =>
    intro s pos
    cases s with
    | nil => exact List.Pairwise.nil
    | cons c t =>
      simp only [findAllPosFuel]
      split
      · split
        · refine List.pairwise_cons.mpr ⟨?_, ih _ _⟩
          intro b hb
          have := findAllPosFuel_lb q m _ _ b hb
          omega
        · exact ih _ _
      · exact ih _ _

namespace FHS

theorem lineEntriesPos_line {n : Nat} {l : Str} {p : Str × Nat × Nat}
    (h : p ∈ lineEntriesPos n l) : p.2.1 = n := by
  obtain ⟨pg, _, hf⟩ := List.mem_filterMap.mp h
  dsimp only [lineEntriesPos] at hf
  split at hf
  · cases hf
    rfl
  · cases hf

theorem extractPosFrom_lb : ∀ (ls : List Str) (k : Nat) (p : Str × Nat × Nat),
    p ∈ extractPosFrom k ls → k ≤ p.2.1 := by
  intro ls
  induction ls with
  | nil => intro k p h; cases h
  | cons l t ih =>
    intro k p h
    rcases List.mem_append.mp h with h1 | h2
    · by_cases hs : skipLine l = true
      · rw [if_pos hs] at h1
        cases h1
      · rw [if_neg hs] at h1
        rw [lineEntriesPos_line h1]
    · have := ih (k + 1) p h2
      omega

theorem extractPosFrom_sorted : ∀ (ls : List Str) (k : Nat),
    List.Pairwise (fun a b => a.2.1 ≤ b.2.1) (extractPosFrom k ls) := by
  intro ls
  induction ls with
  | nil => intro k; exact List.Pairwise.nil
  | cons l t ih =>
    intro k
    show List.Pairwise _ ((if skipLine l then [] else lineEntriesPos k l) ++ extractPosFrom (k + 1) t)
    rw [List.pairwise_append]
    refine ⟨?_, ih (k + 1), ?_⟩
    · by_cases hs : skipLine l = true
      · rw [if_pos hs]
        exact List.Pairwise.nil
      · rw [if_neg hs]
        refine List.pairwise_of_forall_mem_list ?_
        intro a ha b hb
        rw [lineEntriesPos_line ha, lineEntriesPos_line hb]
    · intro a ha b hb
      have hb' := extractPosFrom_lb t (k + 1) b hb
      by_cases hs : skipLine l = true
      · rw [if_pos hs] at ha
        cases ha
      · rw [if_neg hs] at ha
        rw [lineEntriesPos_line ha]
        omega

end FHS

namespace VI

theorem extractFrom_sorted (st : PState) : ∀ (ls : List Str) (k : Nat),
    List.Pairwise (fun a b => a.2.1 ≤ b.2.1) (extractFrom st k ls) := by
  intro ls
  induction ls with
  | nil => intro k; exact List.Pairwise.nil
  | cons l t ih =>
    intro k
    show List.Pairwise _ ((if skipLine l then [] else lineEntries st k l) ++ extractFrom st (k + 1) t)
    rw [List.pairwise_append]
    refine ⟨?_, ih (k + 1), ?_⟩
    · by_cases hs : skipLine l = true
      · rw [if_pos hs]
        exact List.Pairwise.nil
      · rw [if_neg hs]
        refine List.pairwise_of_forall_mem_list ?_
        intro a ha b hb
        rw [(lineEntries_shape ha).1, (lineEntries_shape hb).1]
    · intro a ha b hb
      have hb' := (extractFrom_mem t (k + 1) b hb).1
      by_cases hs : skipLine l = true
      · rw [if_pos hs] at ha
        cases ha
      · rw [if_neg hs] at ha
        rw [(lineEntries_shape ha).1]
        omega

end VI

/-! ### Claim C7: extraction order -/

/-- Claim C7 counterexample: on the single line
`const a = "Hello world" + 'Nice day';` the extractor emits the
single-quoted literal (starting at column 26) BEFORE the double-quoted
literal (starting at column 10), because the single-quote pattern is run
over the whole line first.  The claimed left-to-right order by starting
position fails: the position sequence `[26, 10]` is not
monotonically ordered. -/
theorem extraction_order_cex :
    FHS.extractPos ("const a = \"Hello world\" + 'Nice day';".data) =
      [("Nice day".data, 1, 26), ("Hello world".data, 1, 10)] ∧
    ¬ List.Pairwise (fun a b => a ≤ b)
        ((FHS.extractPos ("const a = \"Hello world\" + 'Nice day';".data)).map
          (fun x => x.2.2)) :=
  ⟨by decide, by decide⟩

/-- Claim C7 (amended): the extracted `(text, line)` sequence is ordered
top-to-bottom by line; within a single line, all single-quoted literals
(in left-to-right scan order) precede all double-quoted literals (in
left-to-right scan order) — not globally left-to-right by starting
position; duplicates are not removed (each match contributes its own
entry, the per-line output being the concatenation of all matches).
The second conjunct states the per-line structure, the third that each
single pattern's matches have strictly increasing start positions. -/
theorem extraction_order_amended (content : Str) (q : Char) (l : Str) :
    List.Pairwise (fun a b => a ≤ b)
      ((FHS.extract_hardcoded_strings content).map Prod.snd) ∧
    List.Pairwise (fun a b => a ≤ b)
      ((VI.extract_hardcoded_strings content).map (fun x => x.2.1)) ∧
    lineLits l = findAllPos '\'' l ++ findAllPos '"' l ∧
    List.Pairwise (fun a b => a.1 < b.1) (findAllPos q l) := by
  refine ⟨?_, ?_, rfl, ?_⟩
  · show List.Pairwise _ (((FHS.extractPos content).map fun x => (x.1, x.2.1)).map Prod.snd)
    rw [List.map_map, List.pairwise_map]
    exact FHS.extractPosFrom_sorted (splitLines content) 1
  · by_cases hw : (VI.parse_ignore_comments content).wholeFile = true
    · rw [show VI.extract_hardcoded_strings content = [] by
        simp [VI.extract_hardcoded_strings, hw]]
      exact List.Pairwise.nil
    · rw [Bool.not_eq_true] at hw
      rw [show VI.extract_hardcoded_strings content
          = VI.extractFrom (VI.parse_ignore_comments content) 1 (splitLines content) by
        simp [VI.extract_hardcoded_strings, hw]]
      rw [List.pairwise_map]
      exact VI.extractFrom_sorted (VI.parse_ignore_comments content) (splitLines content) 1
  · exact findAllPosFuel_pairwise q (l.length + 1) l 0

/-! ### Claim C6: missing-key detection -/

/-- Claim C6: `validate_translation_keys` produces an entry for a locale
exactly when `used_keys` minus that locale's defined keys is non-empty;
the entry's key set is exactly that difference; and a used key defined in
every locale appears in no report. -/
theorem missing_key_detection (used : List Str) (files : List (Str × List Str)) :
    (∀ lang avail, (lang, avail) ∈ files → VI.setDiff used avail ≠ [] →
      (lang, VI.setDiff used avail) ∈ VI.validate_translation_keys used files) ∧
    (∀ lang ks, (lang, ks) ∈ VI.validate_translation_keys used files →
      ∃ avail, (lang, avail) ∈ files ∧ ks = VI.setDiff used avail ∧
        VI.setDiff used avail ≠ []) ∧
    (∀ k, k ∈ used → (∀ lang avail, (lang, avail) ∈ files → k ∈ avail) →
      ∀ lang ks, (lang, ks) ∈ VI.validate_translation_keys used files → k ∉ ks) := by
  refine ⟨?_, ?_, ?_⟩
  · intro lang avail hmem hne
    refine List.mem_filterMap.mpr ⟨(lang, avail), hmem, ?_⟩
    have hie : (VI.setDiff used avail).isEmpty = false := by
      cases hh : (VI.setDiff used avail).isEmpty
      · rfl
      · exact absurd (List.isEmpty_iff.mp hh) hne
    simp [hie]
  · intro lang ks hmem
    obtain ⟨p, hp, hf⟩ := List.mem_filterMap.mp hmem
    dsimp only at hf
    split at hf
    · cases hf
    · rename_i hie
      cases hf
      refine ⟨p.2, ?_, rfl, fun hnil => hie (by rw [hnil]; rfl)⟩
      rw [show p = (p.1, p.2) from rfl] at hp
      exact hp
  · intro k _ hall lang ks hmem hk
    obtain ⟨p, hp, hf⟩ := List.mem_filterMap.mp hmem
    dsimp only at hf
    split at hf
    · cases hf
    · cases hf
      have hflt := List.mem_filter.mp hk
      have hkp : k ∈ p.2 := hall p.1 p.2 (by rw [show p = (p.1, p.2) from rfl] at hp; exact hp)
      rw [listHas_iff.mpr hkp] at hflt
      simp at hflt

/-- Witness for C6: `"a.b"` is missing from the `sv` locale but defined
in `en`, so `sv` is reported with exactly that difference; a key defined
in every locale is in no report. -/
theorem missing_key_detection_witness :
    ("sv".data, VI.setDiff ["a.b".data] []) ∈
      VI.validate_translation_keys ["a.b".data]
        [("sv".data, []), ("en".data, ["a.b".data])] ∧
    (∃ avail, ("sv".data, avail) ∈ [(("sv".data : Str), ([] : List Str))] ∧
      ["a.b".data] = VI.setDiff ["a.b".data] avail ∧
      VI.setDiff ["a.b".data] avail ≠ []) ∧
    ("a.b".data : Str) ∉ (["c.d".data] : List Str) :=
  ⟨(missing_key_detection ["a.b".data] [("sv".data, []), ("en".data, ["a.b".data])]).1
      ("sv".data) [] (by decide) (by decide),
   (missing_key_detection ["a.b".data] [("sv".data, [])]).2.1
      ("sv".data) ["a.b".data] (by decide),
   (missing_key_detection ["a.b".data, "c.d".data] [("sv".data, ["a.b".data])]).2.2
      ("a.b".data) (by decide)
      (by
        intro lang avail hmem
        have hpair := List.mem_singleton.mp hmem
        rw [Prod.mk.injEq] at hpair
        rw [hpair.2]
        decide)
      ("sv".data) ["c.d".data] (by decide)⟩
